import Mathlib

/-!
Verification development for the Moex-Api-Collector repository
(src/futures_collector.py and src/shares_collector.py).

The two collectors are line-by-line identical in their trade-fetching
logic (`get_trades_data`), so the pagination/deduplication loop is
embedded once and the theorems speak for both files.  The HTTP layer is
modelled as a finite stream of responses (one per issued request); an
exhausted stream is treated like a request that raises, which matches the
loop's behaviour of returning the accumulator on any fetch failure.
-/

namespace MoexCollector

/-- A trade record as returned in `trades['data']`: the code reads only
`trade[0]` (TRADENO); all remaining positional fields are kept opaque in
`rest` so that "the full record" is faithfully represented. -/
structure Trade where
  tradeno : Nat
  rest : List Int
deriving DecidableEq, Repr

/-- The `trades` section of a response payload: the `data` list of trade
rows (absent key modelled as `none`) plus the section's non-`data` keys
(`columns`, `metadata`, ...), kept opaque as key/value pairs. -/
structure TradesSection where
  data : Option (List Trade)
  meta : List (String × String)
deriving DecidableEq, Repr

/-- One JSON payload returned by the trades endpoint: an optional
`trades` section plus all non-`trades` top-level keys, kept opaque. -/
structure Payload where
  trades : Option TradesSection
  otherKeys : List (String × String)
deriving DecidableEq, Repr

/-- Outcome of one HTTP request in `get_trades_data`: either an exception
(network error, non-2xx status, JSON parse error) or a payload. -/
inductive Response where
  | err : Response
  | ok : Payload → Response
deriving DecidableEq, Repr

/-- `page_size = 1000` from the source. -/
def pageSize : Nat := 1000

/-- The guard `trades = data.get('trades', {}); if not trades or not
trades.get('data'): break` collapsed into one accessor: `some page` with
`page ≠ []` exactly when the loop proceeds with this payload, `none` when
the trades section or its data list is missing or empty. -/
def pageData (p : Payload) : Option (List Trade) :=
  match p.trades with
  | none => none
  | some sec =>
    match sec.data with
    | none => none
    | some [] => none
    | some page => some page

/-- The per-page dedup loop: `for trade in trades['data']: if trade[0] not
in seen_tradeno: add and append`.  Returns the page's unique records in
page order together with the updated seen set (modelled as a list whose
membership is what the code's set membership tests). -/
def dedupPage (seen : List Nat) : List Trade → List Trade × List Nat
  | [] => ([], seen)
  | t :: ts =>
    if t.tradeno ∈ seen then dedupPage seen ts
    else
      let r := dedupPage (t.tradeno :: seen) ts
      (t :: r.1, r.2)

/-- The accumulator `all_data` once it is non-`None`: the first page's
payload (which the code mutates only at `['trades']['data']`) together
with the accumulated unique-trade list that replaces that field. -/
structure MergedResult where
  base : Payload
  merged : List Trade
deriving DecidableEq, Repr

/-- `all_data = data; all_data['trades']['data'] = unique_trades` on the
first page, `all_data['trades']['data'].extend(unique_trades)` afterwards. -/
def mergeStep (acc : Option MergedResult) (p : Payload) (uniq : List Trade) : MergedResult :=
  match acc with
  | none => { base := p, merged := uniq }
  | some m => { m with merged := m.merged ++ uniq }

/-- The `while True` pagination loop of `get_trades_data`, one constructor
of `Response` consumed per issued request.  Returns the final `all_data`
together with the list of offsets at which requests were issued.  An
exhausted response stream issues no further request and returns the
accumulator (the code only ever observes a finite prefix of responses in
any terminating run). -/
def runFetch : List Response → Option MergedResult → List Nat → Nat → Option MergedResult × List Nat
  | [], acc, _seen, _start => (acc, [])
  | Response.err :: _rs, acc, _seen, start => (acc, [start])
  | Response.ok p :: rs, acc, seen, start =>
    match pageData p with
    | none => (acc, [start])
    | some page =>
      let u := dedupPage seen page
      let acc' := mergeStep acc p u.1
      if page.length < pageSize then (some acc', [start])
      else
        let r := runFetch rs (some acc') u.2 (start + pageSize)
        (r.1, start :: r.2)

/-- `get_trades_data(ticker)` with the response stream made explicit:
`all_data = None`, `start = 0`, `seen_tradeno = set()`, then the loop. -/
def get_trades_data (rs : List Response) : Option MergedResult :=
  (runFetch rs none [] 0).1

/-- The offsets at which `get_trades_data` issues requests, in order. -/
def requestOffsets (rs : List Response) : List Nat :=
  (runFetch rs none [] 0).2

/-- The raw `trades['data']` lists of the pages the loop actually
processes (pages that pass the not-empty guard, up to and including the
first short page, stopping before any error or empty response). -/
def consumedPages : List Response → List (List Trade)
  | [] => []
  | Response.err :: _ => []
  | Response.ok p :: rs =>
    match pageData p with
    | none => []
    | some page =>
      if page.length < pageSize then [page] else page :: consumedPages rs

/-- The payload of the first successfully processed page (the one whose
dict seeds `all_data`), if any. -/
def firstPagePayload : List Response → Option Payload
  | [] => none
  | Response.err :: _ => none
  | Response.ok p :: _ => if (pageData p).isSome then some p else none

/-- The JSON object that `get_trades_data` returns when `all_data` is not
`None`: the first page's payload with only `['trades']['data']` replaced
by the merged unique-trade list. -/
def finalize (m : MergedResult) : Payload :=
  { m.base with trades := m.base.trades.map (fun s => { s with data := some m.merged }) }

/-- Specification-side deduplication: keep, for each trade identifier, the
first record bearing it, in first-seen order. -/
def keyDedup : List Trade → List Trade
  | [] => []
  | t :: ts => t :: keyDedup (ts.filter fun u => u.tradeno ≠ t.tradeno)
termination_by l => l.length
decreasing_by
  simp only [List.length_cons]
  exact Nat.lt_succ_of_le (List.length_filter_le _ _)

/-! ### Instrument listers -/

/-- A shares instrument as built by `get_shares_list`:
`{'ticker': item[0], 'name': item[1]}`. -/
structure ShareInstrument where
  ticker : String
  name : String
deriving DecidableEq, Repr

/-- A futures instrument as built by `get_futures_list`:
`{'ticker': item[0], 'name': item[1], 'expiration': item[2] if len(item) > 2 else None}`. -/
structure FutInstrument where
  ticker : String
  name : String
  expiration : Option String
deriving DecidableEq, Repr

/-- The projection applied to one shares listing row; `none` models an
IndexError raised while indexing the row. -/
def shareOfRow (item : List String) : Option ShareInstrument := do
  let ticker ← item[0]?
  let name ← item[1]?
  pure { ticker := ticker, name := name }

/-- The projection applied to one futures listing row; `none` models an
IndexError raised while indexing the row (`item[2]` is guarded by a
length test in the source, so only `item[0]`/`item[1]` can raise). -/
def futOfRow (item : List String) : Option FutInstrument := do
  let ticker ← item[0]?
  let name ← item[1]?
  pure { ticker := ticker, name := name, expiration := item[2]? }

/-- `get_shares_list`, given the parsed `securities.data` rows: the list
comprehension filters rows with `len(item) >= 2` and projects each; any
exception inside the comprehension is caught and yields `[]`. -/
def get_shares_list (rows : List (List String)) : List ShareInstrument :=
  match (rows.filter fun item => 2 ≤ item.length).mapM shareOfRow with
  | some l => l
  | none => []

/-- `get_futures_list`, given the parsed `securities.data` rows: the list
comprehension filters rows with `len(item) >= 1` and projects each; any
exception inside the comprehension (such as `item[1]` on a one-field row)
is caught by the surrounding `except` and yields `[]`. -/
def get_futures_list (rows : List (List String)) : List FutInstrument :=
  match (rows.filter fun item => 1 ≤ item.length).mapM futOfRow with
  | some l => l
  | none => []

/-! ### Orchestrators -/

/-- Observable actions of a collection run, in program order. -/
inductive Event where
  | logErrorNoInstruments
  | fetchTrades (ticker : String)
  | persistData (ticker : String)
  | logWarnNoData (ticker : String)
  | sleepDelay
deriving DecidableEq, Repr

/-- The per-instrument body of the orchestrator loop: fetch, then either
persist (when data is truthy) or warn, then `time.sleep(1)`. -/
def processOne (fetch : String → Option MergedResult) (ticker : String) : List Event :=
  Event.fetchTrades ticker ::
    ((match fetch ticker with
      | some _ => [Event.persistData ticker]
      | none => [Event.logWarnNoData ticker]) ++ [Event.sleepDelay])

/-- `collect_futures_data`, with the lister's result and the per-ticker
fetch outcome made explicit: `if not futures: log error; return`, else the
sequential loop over instruments. -/
def collect_futures_data (futures : List FutInstrument)
    (fetch : String → Option MergedResult) : List Event :=
  if futures.isEmpty then [Event.logErrorNoInstruments]
  else futures.flatMap fun f => processOne fetch f.ticker

/-- `collect_shares_data`, same shape as the futures orchestrator. -/
def collect_shares_data (shares : List ShareInstrument)
    (fetch : String → Option MergedResult) : List Event :=
  if shares.isEmpty then [Event.logErrorNoInstruments]
  else shares.flatMap fun s => processOne fetch s.ticker

/-! ### Persister filenames -/

/-- The components of `datetime.now()` that the two `save_data`
implementations read. -/
structure LocalTime where
  year : Nat
  month : Nat
  day : Nat
  hour : Nat
  minute : Nat
deriving DecidableEq, Repr

/-- Two-digit zero padding, as `strftime` does for `%m %d %H %M`. -/
def pad2 (n : Nat) : String :=
  if n < 10 then "0" ++ toString n else toString n

/-- Four-digit zero padding, as `strftime` does for `%Y`. -/
def pad4 (n : Nat) : String :=
  if n < 10 then "000" ++ toString n
  else if n < 100 then "00" ++ toString n
  else if n < 1000 then "0" ++ toString n
  else toString n

/-- `now.strftime('%Y-%m-%d')`. -/
def fmtDate (t : LocalTime) : String :=
  pad4 t.year ++ "-" ++ pad2 t.month ++ "-" ++ pad2 t.day

/-- `now.strftime('%H-%M')`. -/
def fmtTimeHM (t : LocalTime) : String :=
  pad2 t.hour ++ "-" ++ pad2 t.minute

/-- `"day" if now.hour < 19 else "evening"` from the futures persister. -/
def futuresSession (t : LocalTime) : String :=
  if t.hour < 19 then "day" else "evening"

/-- The filename computed by the futures `save_data` (path join written
with the `/` separator):
`data_dir/data_type/futures/{ticker}_{data_type}_{date}_{session}_{time}.json`. -/
def futures_filename (data_dir data_type ticker : String) (now : LocalTime) : String :=
  data_dir ++ "/" ++ data_type ++ "/futures/"
    ++ ticker ++ "_" ++ data_type ++ "_" ++ fmtDate now ++ "_"
    ++ futuresSession now ++ "_" ++ fmtTimeHM now ++ ".json"

/-- The filename computed by the shares `save_data`:
`data_dir/data_type/shares/{ticker}_{data_type}_{date}.json` — no time
component at all. -/
def shares_filename (data_dir data_type ticker : String) (now : LocalTime) : String :=
  data_dir ++ "/" ++ data_type ++ "/shares/"
    ++ ticker ++ "_" ++ data_type ++ "_" ++ fmtDate now ++ ".json"

/-! ### Concrete sample inputs (used by witnesses) -/

/-- A sample trade with the given identifier. -/
def wTrade (n : Nat) : Trade := ⟨n, [Int.ofNat n]⟩

/-- A page of `count` sample trades with identifiers `first, first+1, ...`. -/
def wPage (first count : Nat) : List Trade :=
  (List.range' first count).map wTrade

/-- A payload carrying the given trade page plus some section and
top-level metadata. -/
def wPayload (page : List Trade) : Payload :=
  ⟨some ⟨some page, [("columns", "TRADENO, PRICE")]⟩, [("dataversion", "3")]⟩

/-- A small concrete run: one short page holding a duplicated TRADENO
(identifier 1 appears twice, with different payloads). -/
def wRunDup : List Response :=
  [Response.ok (wPayload [⟨1, [10]⟩, ⟨2, [20]⟩, ⟨1, [99]⟩])]

/-- The merged result `get_trades_data` produces on `wRunDup`. -/
def wMergedDup : MergedResult :=
  ⟨wPayload [⟨1, [10]⟩, ⟨2, [20]⟩, ⟨1, [99]⟩], [⟨1, [10]⟩, ⟨2, [20]⟩]⟩

/-! ### Unfolding lemmas for the loop -/

theorem runFetch_nil (acc : Option MergedResult) (seen : List Nat) (start : Nat) :
    runFetch [] acc seen start = (acc, []) := rfl

theorem runFetch_err (rs : List Response) (acc : Option MergedResult) (seen : List Nat)
    (start : Nat) : runFetch (Response.err :: rs) acc seen start = (acc, [start]) := rfl

theorem runFetch_ok_none {p : Payload} (h : pageData p = none) (rs : List Response)
    (acc : Option MergedResult) (seen : List Nat) (start : Nat) :
    runFetch (Response.ok p :: rs) acc seen start = (acc, [start]) := by
  simp only [runFetch, h]

theorem runFetch_ok_short {p : Payload} {page : List Trade} (h : pageData p = some page)
    (hlt : page.length < pageSize) (rs : List Response) (acc : Option MergedResult)
    (seen : List Nat) (start : Nat) :
    runFetch (Response.ok p :: rs) acc seen start
      = (some (mergeStep acc p (dedupPage seen page).1), [start]) := by
  simp only [runFetch, h, if_pos hlt]

theorem runFetch_ok_full {p : Payload} {page : List Trade} (h : pageData p = some page)
    (hge : ¬ page.length < pageSize) (rs : List Response) (acc : Option MergedResult)
    (seen : List Nat) (start : Nat) :
    runFetch (Response.ok p :: rs) acc seen start
      = ((runFetch rs (some (mergeStep acc p (dedupPage seen page).1))
            (dedupPage seen page).2 (start + pageSize)).1,
         start :: (runFetch rs (some (mergeStep acc p (dedupPage seen page).1))
            (dedupPage seen page).2 (start + pageSize)).2) := by
  simp only [runFetch, h, if_neg hge]

/-! ### Properties of the per-page dedup -/

theorem dedupPage_append (l₁ l₂ : List Trade) (seen : List Nat) :
    dedupPage seen (l₁ ++ l₂)
      = ((dedupPage seen l₁).1 ++ (dedupPage (dedupPage seen l₁).2 l₂).1,
         (dedupPage (dedupPage seen l₁).2 l₂).2) := by
  induction l₁ generalizing seen with
  | nil => simp [dedupPage]
  | cons t ts ih =>
    by_cases hm : t.tradeno ∈ seen
    · simp only [List.cons_append, dedupPage, if_pos hm]
      exact ih seen
    · simp only [List.cons_append, dedupPage, if_neg hm, List.append_eq]
      rw [ih (t.tradeno :: seen)]

theorem mem_dedupPage_seen (l : List Trade) (seen : List Nat) (x : Nat) :
    x ∈ (dedupPage seen l).2 ↔ x ∈ seen ∨ x ∈ l.map Trade.tradeno := by
  induction l generalizing seen with
  | nil => simp [dedupPage]
  | cons t ts ih =>
    by_cases hm : t.tradeno ∈ seen
    · simp only [dedupPage, if_pos hm, ih, List.map_cons, List.mem_cons]
      constructor
      · rintro (h | h)
        · exact Or.inl h
        · exact Or.inr (Or.inr h)
      · rintro (h | h | h)
        · exact Or.inl h
        · exact Or.inl (h ▸ hm)
        · exact Or.inr h
    · simp only [dedupPage, if_neg hm, ih, List.mem_cons, List.map_cons]
      tauto

theorem mem_map_dedupPage (l : List Trade) (seen : List Nat) (x : Nat) :
    x ∈ (dedupPage seen l).1.map Trade.tradeno ↔ x ∉ seen ∧ x ∈ l.map Trade.tradeno := by
  induction l generalizing seen with
  | nil => simp [dedupPage]
  | cons t ts ih =>
    by_cases hm : t.tradeno ∈ seen
    · simp only [dedupPage, if_pos hm, ih, List.map_cons, List.mem_cons]
      constructor
      · rintro ⟨hns, hmem⟩; exact ⟨hns, Or.inr hmem⟩
      · rintro ⟨hns, h | h⟩
        · exact absurd (h ▸ hm) hns
        · exact ⟨hns, h⟩
    · simp only [dedupPage, if_neg hm, List.map_cons, List.mem_cons]
      rw [ih]
      constructor
      · rintro (rfl | ⟨hns, hmem⟩)
        · exact ⟨hm, Or.inl rfl⟩
        · exact ⟨fun hx => hns (List.mem_cons_of_mem _ hx), Or.inr hmem⟩
      · rintro ⟨hns, rfl | h⟩
        · exact Or.inl rfl
        · by_cases hxt : x = t.tradeno
          · exact Or.inl hxt
          · refine Or.inr ⟨fun hx => ?_, h⟩
            rcases List.mem_cons.1 hx with h1 | h2
            · exact hxt h1
            · exact hns h2

theorem nodup_dedupPage (l : List Trade) (seen : List Nat) :
    ((dedupPage seen l).1.map Trade.tradeno).Nodup := by
  induction l generalizing seen with
  | nil => simp [dedupPage]
  | cons t ts ih =>
    by_cases hm : t.tradeno ∈ seen
    · simpa only [dedupPage, if_pos hm] using ih seen
    · simp only [dedupPage, if_neg hm, List.map_cons, List.nodup_cons]
      refine ⟨fun hmem => ?_, ih _⟩
      rw [mem_map_dedupPage] at hmem
      exact hmem.1 (List.mem_cons_self _ _)

theorem dedupPage_eq_keyDedup_filter (l : List Trade) (seen : List Nat) :
    (dedupPage seen l).1 = keyDedup (l.filter fun u => u.tradeno ∉ seen) := by
  induction l generalizing seen with
  | nil => simp [dedupPage, keyDedup]
  | cons t ts ih =>
    by_cases hm : t.tradeno ∈ seen
    · rw [List.filter_cons_of_neg (by simp [hm])]
      simp only [dedupPage, if_pos hm]
      exact ih seen
    · rw [List.filter_cons_of_pos (by simp [hm])]
      simp only [dedupPage, if_neg hm]
      rw [keyDedup, ih (t.tradeno :: seen), List.filter_filter]
      have hfil : List.filter (fun u : Trade => decide (u.tradeno ∉ t.tradeno :: seen)) ts
          = List.filter (fun a : Trade => decide (a.tradeno ≠ t.tradeno)
              && decide (a.tradeno ∉ seen)) ts := by
        apply List.filter_congr
        intro u _
        by_cases hut : u.tradeno = t.tradeno
        · simp [hut]
        · by_cases hus : u.tradeno ∈ seen <;> simp [hut, hus]
      rw [hfil]

theorem dedupPage_nil_eq_keyDedup (l : List Trade) :
    (dedupPage [] l).1 = keyDedup l := by
  rw [dedupPage_eq_keyDedup_filter]
  congr 1
  apply List.filter_eq_self.mpr
  intro u _
  simp

/-! ### Characterisation of the pagination loop -/

theorem runFetch_some (rs : List Response) (m : MergedResult) (seen : List Nat) (start : Nat) :
    (runFetch rs (some m) seen start).1
      = some ⟨m.base, m.merged ++ (dedupPage seen (consumedPages rs).flatten).1⟩ := by
  induction rs generalizing m seen start with
  | nil => simp [runFetch_nil, consumedPages, dedupPage]
  | cons r rs ih =>
    cases r with
    | err => simp [runFetch_err, consumedPages, dedupPage]
    | ok p =>
      cases hpd : pageData p with
      | none => simp [runFetch_ok_none hpd, consumedPages, hpd, dedupPage]
      | some page =>
        by_cases hlt : page.length < pageSize
        · simp [runFetch_ok_short hpd hlt, consumedPages, hpd, if_pos hlt, mergeStep]
        · rw [runFetch_ok_full hpd hlt]
          simp only [consumedPages, hpd, if_neg hlt]
          rw [ih]
          simp only [mergeStep, List.flatten_cons, dedupPage_append, List.append_assoc]

theorem get_trades_data_eq (rs : List Response) :
    get_trades_data rs
      = (firstPagePayload rs).map
          (fun p => ⟨p, (dedupPage [] (consumedPages rs).flatten).1⟩) := by
  cases rs with
  | nil => rfl
  | cons r rs =>
    cases r with
    | err => rfl
    | ok p =>
      cases hpd : pageData p with
      | none =>
        simp [get_trades_data, runFetch_ok_none hpd, firstPagePayload, hpd]
      | some page =>
        by_cases hlt : page.length < pageSize
        · simp [get_trades_data, runFetch_ok_short hpd hlt, firstPagePayload, hpd,
            consumedPages, if_pos hlt, mergeStep]
        · unfold get_trades_data
          rw [runFetch_ok_full hpd hlt]
          simp only [runFetch_some, firstPagePayload, hpd, Option.isSome_some, if_pos,
            Option.map_some, consumedPages, if_neg hlt, mergeStep, List.flatten_cons,
            dedupPage_append, List.append_assoc, List.nil_append]
          rfl

/-- A page the loop actually processes is never the empty list. -/
theorem pageData_ne_nil {p : Payload} {page : List Trade} (h : pageData p = some page) :
    page ≠ [] := by
  intro hnil
  subst hnil
  unfold pageData at h
  rcases htr : p.trades with _ | sec
  · simp [htr] at h
  · rcases hd : sec.data with _ | (_ | ⟨t, ts⟩)
    · simp [htr, hd] at h
    · simp [htr, hd] at h
    · simp [htr, hd] at h

/-! ### Claim theorems -/

/-- Claim C1: for every response stream consumed by `get_trades_data`,
possibly containing records with repeated TRADENO values within or across
pages, the merged trade list is exactly the first-occurrence-per-TRADENO
dedup of the concatenation of the consumed pages (pages in fetch order,
records in page order), so each distinct TRADENO appears exactly once,
keeping the full record of its first occurrence. -/
theorem dedup_invariant (rs : List Response) (m : MergedResult)
    (h : get_trades_data rs = some m) :
    m.merged = keyDedup (consumedPages rs).flatten
      ∧ ((m.merged.map Trade.tradeno).Nodup
      ∧ ∀ t ∈ (consumedPages rs).flatten, ∃ u ∈ m.merged, u.tradeno = t.tradeno) := by
  rw [get_trades_data_eq] at h
  rcases hfp : firstPagePayload rs with _ | p
  · rw [hfp] at h; exact Option.noConfusion h
  · rw [hfp, Option.map_some'] at h
    have hm : m = ⟨p, (dedupPage [] (consumedPages rs).flatten).1⟩ :=
      (Option.some_injective _ h).symm
    subst hm
    refine ⟨dedupPage_nil_eq_keyDedup _, nodup_dedupPage _ _, ?_⟩
    intro t ht
    have hkey : t.tradeno ∈ (dedupPage ([] : List Nat)
        (consumedPages rs).flatten).1.map Trade.tradeno := by
      rw [mem_map_dedupPage]
      exact ⟨List.not_mem_nil _, List.mem_map_of_mem _ ht⟩
    rcases List.mem_map.1 hkey with ⟨u, hu, hueq⟩
    exact ⟨u, hu, hueq⟩

/-- Claim C1 witness: a concrete one-page run where TRADENO 1 occurs twice
with different payloads; the merged list keeps the first record only. -/
theorem dedup_invariant_witness :
    wMergedDup.merged = keyDedup (consumedPages wRunDup).flatten
      ∧ ((wMergedDup.merged.map Trade.tradeno).Nodup
      ∧ ∀ t ∈ (consumedPages wRunDup).flatten,
          ∃ u ∈ wMergedDup.merged, u.tradeno = t.tradeno) :=
  dedup_invariant wRunDup wMergedDup rfl

/-- Claim C2: when the raw sizes of the first three pages are 1000, 1000
and 437, the fetcher issues exactly three requests, at offsets 0, 1000 and
2000, and stops after the short page without touching any further
response. -/
theorem pagination_termination (p1 p2 p3 : Payload) (page1 page2 page3 : List Trade)
    (rest : List Response)
    (h1 : pageData p1 = some page1) (hl1 : page1.length = 1000)
    (h2 : pageData p2 = some page2) (hl2 : page2.length = 1000)
    (h3 : pageData p3 = some page3) (hl3 : page3.length = 437) :
    requestOffsets (Response.ok p1 :: Response.ok p2 :: Response.ok p3 :: rest)
      = [0, 1000, 2000] := by
  unfold requestOffsets
  rw [runFetch_ok_full h1 (by simp [hl1, pageSize]),
      runFetch_ok_full h2 (by simp [hl2, pageSize]),
      runFetch_ok_short h3 (by simp [hl3, pageSize])]
  norm_num [pageSize]

/-- Claim C2 witness: a concrete stream with raw page sizes 1000, 1000,
437 followed by a further available response that is never requested. -/
theorem pagination_termination_witness :
    requestOffsets [Response.ok (wPayload (wPage 0 1000)),
        Response.ok (wPayload (wPage 1000 1000)),
        Response.ok (wPayload (wPage 2000 437)), Response.err]
      = [0, 1000, 2000] :=
  pagination_termination _ _ _ _ _ _ _
    rfl (by simp [wPage]) rfl (by simp [wPage]) rfl (by simp [wPage])

/-- Claim C4: an exception while fetching any page once a result has been
accumulated makes the loop stop at that request and return the
accumulator unchanged (the error is handled in the loop, never
propagated); in particular, with an error on the 2nd page's request the
result still holds every unique record of page 1 and no 3rd request is
issued. -/
theorem partial_failure :
    (∀ (rs : List Response) (acc : Option MergedResult) (seen : List Nat) (start : Nat),
        runFetch (Response.err :: rs) acc seen start = (acc, [start]))
    ∧ ∀ (p1 : Payload) (page1 : List Trade) (rest : List Response),
        pageData p1 = some page1 → page1.length = pageSize →
        get_trades_data (Response.ok p1 :: Response.err :: rest)
            = some ⟨p1, keyDedup page1⟩
          ∧ requestOffsets (Response.ok p1 :: Response.err :: rest) = [0, 1000] := by
  refine ⟨runFetch_err, ?_⟩
  intro p1 page1 rest h1 hl1
  have hge : ¬ page1.length < pageSize := by simp [hl1]
  constructor
  · unfold get_trades_data
    rw [runFetch_ok_full h1 hge, runFetch_err]
    simp [mergeStep, dedupPage_nil_eq_keyDedup]
  · unfold requestOffsets
    rw [runFetch_ok_full h1 hge, runFetch_err]
    norm_num [pageSize]

/-- Claim C4 witness: a concrete full first page followed by a failing
2nd request. -/
theorem partial_failure_witness :
    get_trades_data [Response.ok (wPayload (wPage 0 1000)), Response.err]
        = some ⟨wPayload (wPage 0 1000), keyDedup (wPage 0 1000)⟩
      ∧ requestOffsets [Response.ok (wPayload (wPage 0 1000)), Response.err]
        = [0, 1000] :=
  partial_failure.2 _ _ _ rfl (by simp [wPage, pageSize])

/-- Claim C5: when the first two pages each hold exactly 1000 raw records,
the fetcher issues a 3rd request at offset 2000, and a response with an
empty or missing trades data field there ends the loop normally: the
merged result of the first two pages is returned. -/
theorem pagination_exact_multiple (p1 p2 p3 : Payload) (page1 page2 : List Trade)
    (rest : List Response)
    (h1 : pageData p1 = some page1) (hl1 : page1.length = pageSize)
    (h2 : pageData p2 = some page2) (hl2 : page2.length = pageSize)
    (h3 : pageData p3 = none) :
    get_trades_data (Response.ok p1 :: Response.ok p2 :: Response.ok p3 :: rest)
        = some ⟨p1, keyDedup (page1 ++ page2)⟩
      ∧ requestOffsets (Response.ok p1 :: Response.ok p2 :: Response.ok p3 :: rest)
        = [0, 1000, 2000] := by
  have hge1 : ¬ page1.length < pageSize := by simp [hl1]
  have hge2 : ¬ page2.length < pageSize := by simp [hl2]
  have hbridge : (dedupPage [] page1).1
        ++ (dedupPage (dedupPage [] page1).2 page2).1 = keyDedup (page1 ++ page2) := by
    rw [← dedupPage_nil_eq_keyDedup, dedupPage_append]
  constructor
  · unfold get_trades_data
    rw [runFetch_ok_full h1 hge1, runFetch_ok_full h2 hge2, runFetch_ok_none h3]
    simp [mergeStep, hbridge]
  · unfold requestOffsets
    rw [runFetch_ok_full h1 hge1, runFetch_ok_full h2 hge2, runFetch_ok_none h3]
    norm_num [pageSize]

/-- Claim C5 witness: two concrete full pages, then a payload whose trades
data list is empty, then a further response that is never requested. -/
theorem pagination_exact_multiple_witness :
    get_trades_data [Response.ok (wPayload (wPage 0 1000)),
        Response.ok (wPayload (wPage 1000 1000)), Response.ok (wPayload []),
        Response.err]
        = some ⟨wPayload (wPage 0 1000), keyDedup (wPage 0 1000 ++ wPage 1000 1000)⟩
      ∧ requestOffsets [Response.ok (wPayload (wPage 0 1000)),
          Response.ok (wPayload (wPage 1000 1000)), Response.ok (wPayload []),
          Response.err]
        = [0, 1000, 2000] :=
  pagination_exact_multiple _ _ _ _ _ _
    rfl (by simp [wPage, pageSize]) rfl (by simp [wPage, pageSize]) rfl

/-- Claim C9: the merged result is seeded from the first processed page's
payload; later pages only extend the trades data list, so the returned
object's non-trade top-level keys and the non-data keys of its trades
section are exactly those of the first page's payload. -/
theorem first_page_metadata_frame (rs : List Response) (m : MergedResult)
    (h : get_trades_data rs = some m) :
    firstPagePayload rs = some m.base
      ∧ (finalize m).otherKeys = m.base.otherKeys
      ∧ (finalize m).trades.map TradesSection.meta
          = m.base.trades.map TradesSection.meta := by
  refine ⟨?_, rfl, ?_⟩
  · rw [get_trades_data_eq] at h
    rcases hfp : firstPagePayload rs with _ | p
    · rw [hfp] at h; exact Option.noConfusion h
    · rw [hfp, Option.map_some'] at h
      have hm : m = ⟨p, (dedupPage [] (consumedPages rs).flatten).1⟩ :=
        (Option.some_injective _ h).symm
      rw [hm]
  · cases htr : m.base.trades <;> simp [finalize, htr]

/-- Claim C9 witness: on the concrete duplicated-TRADENO run, the returned
object keeps the first page's metadata verbatim. -/
theorem first_page_metadata_frame_witness :
    firstPagePayload wRunDup = some wMergedDup.base
      ∧ (finalize wMergedDup).otherKeys = wMergedDup.base.otherKeys
      ∧ (finalize wMergedDup).trades.map TradesSection.meta
          = wMergedDup.base.trades.map TradesSection.meta :=
  first_page_metadata_frame wRunDup wMergedDup rfl

/-- Claim C10: the fetcher returns `none` exactly when the very first
request fails or yields empty/missing trade data; consequently any
returned merged result has a non-empty trade list. -/
theorem none_iff_first_page_bad :
    (∀ (r : Response) (rs : List Response),
        get_trades_data (r :: rs) = none
          ↔ r = Response.err ∨ ∃ p, r = Response.ok p ∧ pageData p = none)
    ∧ ∀ (rs : List Response) (m : MergedResult),
        get_trades_data rs = some m → m.merged ≠ [] := by
  constructor
  · intro r rs
    cases r with
    | err => simp [get_trades_data, runFetch_err]
    | ok p =>
      cases hpd : pageData p with
      | none => simp [get_trades_data, runFetch_ok_none hpd, hpd]
      | some page =>
        by_cases hlt : page.length < pageSize
        · simp [get_trades_data, runFetch_ok_short hpd hlt, hpd]
        · simp [get_trades_data, runFetch_ok_full hpd hlt, runFetch_some, hpd]
  · intro rs m h
    rw [get_trades_data_eq] at h
    rcases hfp : firstPagePayload rs with _ | p
    · rw [hfp] at h; exact Option.noConfusion h
    · rw [hfp, Option.map_some'] at h
      have hm : m = ⟨p, (dedupPage [] (consumedPages rs).flatten).1⟩ :=
        (Option.some_injective _ h).symm
      subst hm
      rcases rs with _ | ⟨r, rs'⟩
      · simp [firstPagePayload] at hfp
      · cases r with
        | err => simp [firstPagePayload] at hfp
        | ok q =>
          cases hpd : pageData q with
          | none => simp [firstPagePayload, hpd] at hfp
          | some page =>
            have hne := pageData_ne_nil hpd
            rcases page with _ | ⟨t, ts⟩
            · exact absurd rfl hne
            · simp only [consumedPages, hpd]
              by_cases hlt : (t :: ts).length < pageSize
              · rw [if_pos hlt]
                simp [dedupPage]
              · rw [if_neg hlt]
                simp [List.flatten_cons, List.cons_append, dedupPage]

/-- Claim C10 witness: the concrete duplicated-TRADENO run returns a
merged result whose trade list is non-empty. -/
theorem none_iff_first_page_bad_witness : wMergedDup.merged ≠ [] :=
  none_iff_first_page_bad.2 wRunDup wMergedDup rfl

/-- Claim C3, evaluated at the failing input: a futures listing row with a
single field passes the `len(item) >= 1` guard, `item[1]` then raises
IndexError inside the comprehension, and the surrounding handler turns the
whole listing into `[]` — the well-formed row is lost instead of the short
row being dropped.  Without the short row the same well-formed row is
projected, and the shares lister (guard `len(item) >= 2`) does drop its
short rows as the claim states. -/
theorem futures_short_row_aborts_listing :
    get_futures_list [["RIZ5", "RTS-12.25", "2025-12-18"], ["SBER"]] = []
      ∧ get_futures_list [["RIZ5", "RTS-12.25", "2025-12-18"]]
          = [⟨"RIZ5", "RTS-12.25", some "2025-12-18"⟩]
      ∧ get_shares_list [["SBER", "Sberbank"], ["X"]] = [⟨"SBER", "Sberbank"⟩] :=
  ⟨rfl, rfl, rfl⟩

/-- Claim C6: when the instrument list is empty (which is also what a
failed listing yields), each orchestrator only logs an error and returns:
no fetch, no persist, no sleep happens for any instrument. -/
theorem empty_list_short_circuit :
    (∀ fetch_f : String → Option MergedResult,
        collect_futures_data [] fetch_f = [Event.logErrorNoInstruments])
    ∧ (∀ fetch_s : String → Option MergedResult,
        collect_shares_data [] fetch_s = [Event.logErrorNoInstruments])
    ∧ (∀ (fetch_f : String → Option MergedResult) (t : String),
        Event.fetchTrades t ∉ collect_futures_data [] fetch_f
        ∧ Event.persistData t ∉ collect_futures_data [] fetch_f)
    ∧ ∀ (fetch_s : String → Option MergedResult) (t : String),
        Event.fetchTrades t ∉ collect_shares_data [] fetch_s
        ∧ Event.persistData t ∉ collect_shares_data [] fetch_s := by
  refine ⟨fun _ => rfl, fun _ => rfl, fun f t => ?_, fun f t => ?_⟩
  · constructor <;> simp [collect_futures_data]
  · constructor <;> simp [collect_shares_data]

/-- Claim C7: the futures persister tags the file with session "day"
exactly when the wall-clock hour at save time is below 19, and "evening"
otherwise; invocations at 18:40 and 23:10 on one date get different
session tags and different minute-resolution suffixes, hence different
filenames. -/
theorem futures_session_naming :
    (∀ t : LocalTime, futuresSession t = "day" ↔ t.hour < 19)
    ∧ (∀ y mo d : Nat,
        futuresSession ⟨y, mo, d, 18, 40⟩ = "day"
        ∧ futuresSession ⟨y, mo, d, 23, 10⟩ = "evening")
    ∧ fmtTimeHM ⟨2025, 10, 12, 18, 40⟩ ≠ fmtTimeHM ⟨2025, 10, 12, 23, 10⟩
    ∧ futures_filename "moex_data" "trades" "SIZ5" ⟨2025, 10, 12, 18, 40⟩
        ≠ futures_filename "moex_data" "trades" "SIZ5" ⟨2025, 10, 12, 23, 10⟩ := by
  refine ⟨fun t => ?_, fun y mo d => ⟨rfl, rfl⟩, by decide, by decide⟩
  unfold futuresSession
  by_cases h : t.hour < 19
  · rw [if_pos h]
    exact iff_of_true rfl h
  · rw [if_neg h]
    exact iff_of_false (by decide) h

/-- Claim C8: the shares persister's filename encodes only ticker, data
kind and calendar date — no time component — so two invocations on the
same date compute the identical path and the later write overwrites the
earlier file. -/
theorem shares_filename_idempotent (dir ty tick : String) (t1 t2 : LocalTime)
    (hy : t1.year = t2.year) (hmo : t1.month = t2.month) (hd : t1.day = t2.day) :
    shares_filename dir ty tick t1 = shares_filename dir ty tick t2 := by
  unfold shares_filename fmtDate
  rw [hy, hmo, hd]

/-- Claim C8 witness: a morning and a night invocation on 2025-10-12
produce the same shares filename. -/
theorem shares_filename_idempotent_witness :
    shares_filename "moex_data" "trades" "SBER" ⟨2025, 10, 12, 9, 0⟩
      = shares_filename "moex_data" "trades" "SBER" ⟨2025, 10, 12, 23, 59⟩ :=
  shares_filename_idempotent _ _ _ _ _ rfl rfl rfl

end MoexCollector
